import Mathlib

/-!
Shallow embedding of `neo/io/pynnio.py` (legacy PyNN format IO).

The module stores data as a flat two-column (value, channel-index) numeric
table plus a key/value metadata side channel.  Machine floats are modelled
as rationals (the claims grant floating-point tolerance, and every numeric
operation in the source is exact on the represented values); Python
exceptions are modelled with `Except` over an explicit error type whose
constructors carry the specification error names, each documented with the
concrete Python exception the source raises.
-/

deriving instance DecidableEq for Except

namespace Pynn

/-! ### Kernel-computable rational arithmetic

The library's rational field operations are irreducible, which blocks
evaluation of concrete instances by `decide`; the executable definitions
below therefore use these `mkRat`-based equivalents, and the `q*_eq`
lemmas identify them with the field operations for the abstract
reasoning. -/

/-- Kernel-computable multiplication on `ℚ`. -/
def qMul (a b : ℚ) : ℚ := mkRat (a.num * b.num) (a.den * b.den)

/-- Kernel-computable addition on `ℚ`. -/
def qAdd (a b : ℚ) : ℚ := mkRat (a.num * b.den + b.num * a.den) (a.den * b.den)

/-- Kernel-computable negation on `ℚ`. -/
def qNeg (a : ℚ) : ℚ := mkRat (-a.num) a.den

/-- Kernel-computable inverse on `ℚ`. -/
def qInv (a : ℚ) : ℚ := mkRat (a.num.sign * a.den) a.num.natAbs

/-- Kernel-computable division on `ℚ`. -/
def qDiv (a b : ℚ) : ℚ := qMul a (qInv b)

theorem mkRat_eq_cast_div (n : ℤ) (d : ℕ) : mkRat n d = (n : ℚ) / (d : ℚ) := by
  rw [Rat.mkRat_eq_divInt, Rat.divInt_eq_div]
  norm_cast

theorem qMul_eq (a b : ℚ) : qMul a b = a * b := by
  have had : ((a.den : ℚ)) ≠ 0 := by exact_mod_cast a.den_nz
  have hbd : ((b.den : ℚ)) ≠ 0 := by exact_mod_cast b.den_nz
  have ha : (a.num : ℚ) = a * a.den := (div_eq_iff had).mp (Rat.num_div_den a)
  have hb : (b.num : ℚ) = b * b.den := (div_eq_iff hbd).mp (Rat.num_div_den b)
  rw [qMul, mkRat_eq_cast_div]
  push_cast
  rw [ha, hb, div_eq_iff (mul_ne_zero had hbd)]
  ring

theorem qAdd_eq (a b : ℚ) : qAdd a b = a + b := by
  have had : ((a.den : ℚ)) ≠ 0 := by exact_mod_cast a.den_nz
  have hbd : ((b.den : ℚ)) ≠ 0 := by exact_mod_cast b.den_nz
  have ha : (a.num : ℚ) = a * a.den := (div_eq_iff had).mp (Rat.num_div_den a)
  have hb : (b.num : ℚ) = b * b.den := (div_eq_iff hbd).mp (Rat.num_div_den b)
  rw [qAdd, mkRat_eq_cast_div]
  push_cast
  rw [ha, hb, div_eq_iff (mul_ne_zero had hbd)]
  ring

theorem qNeg_eq (a : ℚ) : qNeg a = -a := by
  have had : ((a.den : ℚ)) ≠ 0 := by exact_mod_cast a.den_nz
  have ha : (a.num : ℚ) = a * a.den := (div_eq_iff had).mp (Rat.num_div_den a)
  rw [qNeg, mkRat_eq_cast_div]
  push_cast
  rw [ha, div_eq_iff had]
  ring

theorem qInv_eq (a : ℚ) : qInv a = a⁻¹ := by
  rw [qInv, Rat.mkRat_eq_divInt, Rat.inv_def']
  rcases lt_trichotomy a.num 0 with h | h | h
  · rw [Int.sign_eq_neg_one_of_neg h]
    have hn : (a.num.natAbs : ℤ) = -a.num := by omega
    rw [hn, show (-1 * (a.den : ℤ)) = -(a.den : ℤ) by ring, Rat.neg_divInt_neg]
  · rw [h, Int.sign_zero, Int.zero_mul, Int.natAbs_zero]
    simp
  · rw [Int.sign_eq_one_of_pos h]
    have hn : (a.num.natAbs : ℤ) = a.num := by omega
    rw [hn, Int.one_mul]

theorem qDiv_eq (a b : ℚ) : qDiv a b = a / b := by
  rw [qDiv, qMul_eq, qInv_eq, div_eq_mul_inv]

/-- A Python scalar value as it occurs in a metadata mapping:
integers, floats (modelled as rationals), strings, booleans. -/
inductive PyValue where
  | int (n : ℤ)
  | float (q : ℚ)
  | str (s : String)
  | bool (b : Bool)
deriving DecidableEq

/-- Model of a `quantities` unit: a printable symbol (what
`units.unicode` / `units.u_symbol` yields), a scale factor relative to the
SI base unit of its dimension, and a dimension tag (rescaling between
units of different dimensions raises in `quantities`). -/
structure PqUnit where
  symbol : String
  scale : ℚ
  dim : String
deriving DecidableEq

/-- `pq.ms`. -/
def msUnit : PqUnit := ⟨"ms", mkRat 1 1000, "time"⟩

/-- `pq.s`. -/
def sUnit : PqUnit := ⟨"s", 1, "time"⟩

/-- `pq.mV`. -/
def mVUnit : PqUnit := ⟨"mV", mkRat 1 1000, "electric_potential"⟩

/-- `pq.V`. -/
def VUnit : PqUnit := ⟨"V", 1, "electric_potential"⟩

/-- `pq.UnitQuantity('microsiemens', 1e-6 * pq.S, 'uS', 'µS')`; its
`u_symbol` (the string written to file) is `µS`. -/
def uSUnit : PqUnit := ⟨"µS", mkRat 1 1000000, "conductance"⟩

/-- `pq.S`. -/
def SUnit : PqUnit := ⟨"S", 1, "conductance"⟩

/-- The module-level table `UNITS_MAP = {'spikes': pq.ms, 'v': pq.mV,
'gsyn': <microsiemens>}`, as a partial map so that the Python membership
test `variable in UNITS_MAP` is `(UNITS_MAP v).isSome`. -/
def UNITS_MAP (s : String) : Option PqUnit :=
  if s = "spikes" then some msUnit
  else if s = "v" then some mVUnit
  else if s = "gsyn" then some uSUnit
  else none

/-- Model of the `quantities` unit registry lookup performed when a signal
is constructed with a textual `units` argument (e.g.
`AnalogSignal(..., units='mV')`): the symbols this module can write map
back to their units, anything else fails. -/
def parseUnit : String → Option PqUnit
  | "ms" => some msUnit
  | "s" => some sUnit
  | "mV" => some mVUnit
  | "V" => some VUnit
  | "uS" => some uSUnit
  | "µS" => some uSUnit
  | "S" => some SUnit
  | _ => none

/-- A physical quantity: magnitude and unit. -/
structure Quantity where
  mag : ℚ
  unit : PqUnit
deriving DecidableEq

/-- Metadata mapping (a Python dict with string keys, in insertion
order; keys are unique in an actual dict). -/
abbrev Metadata := List (String × PyValue)

/-- Dict lookup (`metadata[k]` / `k in metadata`): first binding wins;
an actual dict has unique keys. -/
def mdLookup (k : String) : Metadata → Option PyValue
  | [] => none
  | (k1, v) :: rest => if k = k1 then some v else mdLookup k rest

/-- Dict assignment `metadata[k] = v`: replaces the value in place when
the key is present, appends otherwise (Python 3.7+ dict order). -/
def setKey : Metadata → String → PyValue → Metadata
  | [], k, v => [(k, v)]
  | (k1, v1) :: rest, k, v =>
      if k = k1 then (k1, v) :: rest else (k1, v1) :: setKey rest k v

/-- Errors raised by the module.  Constructor names follow the
specification's error vocabulary; each documents the concrete Python
exception that the source raises at the corresponding site. -/
inductive PyNNError where
  /-- `TypeError` in `read_analogsignal` / `read_spiketrain` (the spec's
  `FormatMismatchError`). -/
  | formatMismatch (msg : String)
  /-- `IndexError` in `read_analogsignal` / `read_spiketrain` (the spec's
  `NotFoundError`). -/
  | notFound (msg : String)
  /-- `AssertionError` from the `assert len(source) > 0` guard in
  `write_segment` (the spec's `EmptySegmentError`). -/
  | emptySegment (msg : String)
  /-- `IOError("Cannot determine units")` in `_determine_units` (the
  spec's `UnitResolutionError`). -/
  | unitResolution (msg : String)
  /-- `KeyError` from a missing required metadata key. -/
  | keyError (k : String)
  /-- `numpy` `ValueError` (e.g. `vstack` of no arrays or of rows of
  unequal length, or rescaling between incompatible dimensions). -/
  | valueError (msg : String)
  /-- `UnboundLocalError` (reading a local that was never assigned). -/
  | unboundLocal (n : String)
  /-- `TypeError` from using a metadata value at the wrong type. -/
  | typeMismatch (msg : String)
  /-- `AttributeError` (e.g. `SpikeTrain` has no `sampling_period`). -/
  | attributeMissing (msg : String)
  /-- Unit string that the unit registry cannot resolve. -/
  | unknownUnit (s : String)
deriving DecidableEq

/-- `metadata[k]` with `KeyError` on absence. -/
def getKey (md : Metadata) (k : String) : Except PyNNError PyValue :=
  match mdLookup k md with
  | some v => .ok v
  | none => .error (.keyError k)

/-- A metadata value used as an integer (`range(...)` bounds). -/
def getIntKey (md : Metadata) (k : String) : Except PyNNError ℤ := do
  match ← getKey md k with
  | .int n => .ok n
  | _ => .error (.typeMismatch k)

/-- A metadata value used as a number (`metadata['dt'] * pq.ms`). -/
def getNumKey (md : Metadata) (k : String) : Except PyNNError ℚ := do
  match ← getKey md k with
  | .int n => .ok (n : ℚ)
  | .float q => .ok q
  | _ => .error (.typeMismatch k)

/-! ### Decimal printing and the literal fragment of `eval`

The two format drivers stringify metadata values with `str(...)` on write
and decode them with `eval(value)` (falling back to the raw string) on
read.  `natDigits`/`natChars` model `str` for integers; `floatChars`
models `str` for floats with a terminating decimal expansion (the only
floats whose textual round trip the theorems rely on); `pyEval` models
`eval` on the fragment of Python expressions relevant here: numeric,
boolean and quoted-string literals, plus integer addition as a
representative non-literal expression (an arbitrary-code evaluator
accepts it, a literal parser must not). -/

/-- Low-to-high decimal digits, structurally recursive on a fuel bound so
that the kernel can evaluate it (`natDigits_eq` relates it to
`Nat.digits`). -/
def natDigitsAux : ℕ → ℕ → List ℕ
  | _, 0 => []
  | 0, _ + 1 => []
  | f + 1, n + 1 => ((n + 1) % 10) :: natDigitsAux f ((n + 1) / 10)

/-- Low-to-high decimal digits of `n`. -/
def natDigits (n : ℕ) : List ℕ := natDigitsAux n n

/-- The character of one decimal digit. -/
def digitChar : ℕ → Char
  | 0 => '0' | 1 => '1' | 2 => '2' | 3 => '3' | 4 => '4'
  | 5 => '5' | 6 => '6' | 7 => '7' | 8 => '8' | _ => '9'

/-- The value of a decimal digit character (10 for non-digits). -/
def digitVal (c : Char) : ℕ :=
  match c with
  | '0' => 0 | '1' => 1 | '2' => 2 | '3' => 3 | '4' => 4
  | '5' => 5 | '6' => 6 | '7' => 7 | '8' => 8 | '9' => 9
  | _ => 10

/-- Decimal digit test. -/
def isDigitC (c : Char) : Bool := digitVal c < 10

/-- `str(n)` for a natural number. -/
def natChars (n : ℕ) : List Char :=
  if n = 0 then ['0'] else ((natDigits n).map digitChar).reverse

/-- `str(n)` for a Python int. -/
def intChars (n : ℤ) : List Char :=
  if n < 0 then '-' :: natChars n.natAbs else natChars n.natAbs

/-- Smallest number of decimal places (up to the 17 that float repr can
need) that expresses `q` exactly, if one exists. -/
def decExp (q : ℚ) : Option ℕ :=
  (List.range 18).find? (fun e => (qMul q ((10 ^ e : ℕ) : ℚ)).den = 1)

/-- `str(x)` for a float with terminating decimal expansion: sign,
integer part, `.`, fractional part (at least one digit each, as Python
prints e.g. `2.0` and `0.1`).  For a magnitude with no terminating
expansion within 17 places the result is unspecified garbage; no theorem
relies on it. -/
def floatChars (q : ℚ) : List Char :=
  let e := max 1 ((decExp q).getD 17)
  let scaled : ℤ := (qMul q ((10 ^ e : ℕ) : ℚ)).num
  let ds := natChars scaled.natAbs
  let ds := if ds.length ≤ e then List.replicate (e + 1 - ds.length) '0' ++ ds else ds
  let signed := ds.take (ds.length - e) ++ '.' :: ds.drop (ds.length - e)
  if q < 0 then '-' :: signed else signed

/-- `str(v)` for a metadata value — what both format drivers write
(`numpy.array(sorted(metadata.items()), dtype)` and
`"# %s = %s\n" % item` both stringify with `str`).  Note that `str` of a
Python string is the string itself, unquoted. -/
def pyStr : PyValue → String
  | .int n => ⟨intChars n⟩
  | .float q => ⟨floatChars q⟩
  | .str s => s
  | .bool b => if b then "True" else "False"

/-- Parse a non-empty all-digit character list as a natural number. -/
def parseNatChars (cs : List Char) : Option ℕ :=
  if cs ≠ [] ∧ cs.all isDigitC then
    some (Nat.ofDigits 10 ((cs.map digitVal).reverse))
  else none

/-- Parse a Python int literal (optional sign, digits). -/
def parseIntChars (cs : List Char) : Option ℤ :=
  if cs.head? = some '-' then (parseNatChars cs.tail).map (fun n => -(n : ℤ))
  else (parseNatChars cs).map (fun n => (n : ℤ))

/-- Parse an unsigned decimal `a.b` fraction. -/
def parseFracChars (cs : List Char) : Option ℚ :=
  match cs.splitOn '.' with
  | [ip, fp] =>
      if (ip ≠ [] ∨ fp ≠ []) ∧ ip.all isDigitC ∧ fp.all isDigitC then
        some (qAdd ((Nat.ofDigits 10 ((ip.map digitVal).reverse) : ℕ) : ℚ)
          (qDiv ((Nat.ofDigits 10 ((fp.map digitVal).reverse) : ℕ) : ℚ) ((10 ^ fp.length : ℕ) : ℚ)))
      else none
  | _ => none

/-- Parse a Python float literal (optional sign, digits, dot, digits). -/
def parseFloatChars (cs : List Char) : Option ℚ :=
  if cs.head? = some '-' then (parseFracChars cs.tail).map (fun q => qNeg q)
  else parseFracChars cs

/-- Parse a quoted Python string literal with no escapes or inner
quotes. -/
def parseStrLit (cs : List Char) : Option String :=
  match cs with
  | q :: rest =>
      if (q = '\x27' ∨ q = '"') ∧ rest ≠ [] ∧ rest.getLast? = some q ∧
          (rest.dropLast.all (fun c => c ≠ '\x27' ∧ c ≠ '"' ∧ c ≠ '\\')) then
        some ⟨rest.dropLast⟩
      else none
  | [] => none

/-- Model of Python `eval` on the expression fragment exercised by this
module: int, float, boolean and quoted-string literals evaluate to
themselves, and a sum of two or more int literals evaluates to its value
(witnessing that `eval` is an expression evaluator, not a literal
parser).  `none` models the `eval` call raising (`NameError`,
`SyntaxError`, ...), which the callers catch. -/
def pyEval (s : String) : Option PyValue :=
  match parseIntChars s.data with
  | some n => some (.int n)
  | none =>
    match parseFloatChars s.data with
    | some q => some (.float q)
    | none =>
      if s.data = "True".data then some (.bool true)
      else if s.data = "False".data then some (.bool false)
      else
        match parseStrLit s.data with
        | some t => some (.str t)
        | none =>
          if (s.data.splitOn '+').length ≥ 2 ∧
              (s.data.splitOn '+').all (fun p => (parseIntChars p).isSome) then
            some (.int (((s.data.splitOn '+').map (fun p => (parseIntChars p).getD 0)).sum))
          else none

/-- The decoding applied to each on-disk metadata value string by
`PyNNNumpyIO._read_file_contents` and `PyNNTextIO._read_metadata`:
`try: eval(value) except: keep the string`. -/
def decodeValue (s : String) : PyValue := (pyEval s).getD (.str s)

/-- Write-then-read transformation of one metadata value
(stringification by the driver followed by `decodeValue`). -/
def decodePy (v : PyValue) : PyValue := decodeValue (pyStr v)

/-- Modelled from the spec (§9, the hardening requirement; no such
function exists in the source): a narrow safe literal parser — attempt
integer parse, then float parse, then `True`/`False` and quoted strings;
otherwise retain the plain string.  Used only to compare the source's
`eval`-based decoder against the specified behaviour. -/
def safeLiteralParse (s : String) : PyValue :=
  match parseIntChars s.data with
  | some n => .int n
  | none =>
    match parseFloatChars s.data with
    | some q => .float q
    | none =>
      if s.data = "True".data then .bool true
      else if s.data = "False".data then .bool false
      else
        match parseStrLit s.data with
        | some t => .str t
        | none => .str s

/-! ### Data model (the slices of `neo.core` this module touches) -/

/-- An analog signal, stored channel-major: `channels` lists, per
channel, its successive samples (so `channels` is the transpose `s.T` of
the time-major numpy array and `channels.length` is `s.shape[1]`).  The
annotation mapping holds `label`, `variable` and friends. -/
structure AnalogSignal where
  channels : List (List ℚ)
  units : PqUnit
  sampling_period : Quantity
  annots : Metadata
deriving DecidableEq

/-- A spike train: event times (in `units`), an upper time bound
`t_stop` (a magnitude in `units`), and annotations. -/
structure SpikeTrain where
  times : List ℚ
  units : PqUnit
  t_stop : ℚ
  annots : Metadata
deriving DecidableEq

/-- A segment: analog signals and/or spike trains plus an annotation
mapping. -/
structure Segment where
  analogsignals : List AnalogSignal
  spiketrains : List SpikeTrain
  annots : Metadata
deriving DecidableEq

/-- `q.rescale(u)`: magnitude of the quantity expressed in unit `u`;
`quantities` raises a `ValueError` on incompatible dimensions. -/
def rescaleQ (q : Quantity) (u : PqUnit) : Except PyNNError ℚ :=
  if q.unit.dim = u.dim then .ok (qDiv (qMul q.mag q.unit.scale) u.scale)
  else .error (.valueError "Unable to convert between units of different dimensions")

/-- `numpy.array(sig.rescale(u))` for a list of magnitudes carried in
unit `cu`. -/
def rescaleList (vals : List ℚ) (cu u : PqUnit) : Except PyNNError (List ℚ) :=
  if cu.dim = u.dim then .ok (vals.map (fun v => qDiv (qMul v cu.scale) u.scale))
  else .error (.valueError "Unable to convert between units of different dimensions")

/-- The Python builtin `max` over a non-empty numeric sequence
(`spike_times.max()`); 0 on the empty list, which no caller reaches. -/
def listMax : List ℚ → ℚ
  | [] => 0
  | x :: xs => xs.foldl max x

/-- Python `range(a, b + 1)` as a list of ints. -/
def intRange (a b : ℤ) : List ℤ :=
  (List.range (b + 1 - a).toNat).map (fun (k : ℕ) => a + (k : ℤ))

/-! ### The shared codec core (`BasePyNNIO`) -/

/-- `_extract_array(data, channel_index)`: the rows of the flat table
whose column 1 equals the channel index, in file order, column 0 only. -/
def extract_array (data : List (ℚ × ℚ)) (channel_index : ℤ) : List ℚ :=
  (data.filter (fun r => decide (r.2 = (channel_index : ℚ)))).map Prod.fst

/-- `_determine_units(metadata)`: an explicit `units` value wins (and is
returned as-is), else a recognized `variable` resolves through
`UNITS_MAP`, else `IOError("Cannot determine units")`. -/
def determine_units (md : Metadata) : Except PyNNError (PyValue ⊕ PqUnit) :=
  match mdLookup "units" md with
  | some v => .ok (.inl v)
  | none =>
    match mdLookup "variable" md with
    | some (.str s) =>
        match UNITS_MAP s with
        | some u => .ok (.inr u)
        | none => .error (.unitResolution "Cannot determine units")
    | _ => .error (.unitResolution "Cannot determine units")

/-- Coercion of the `units=` constructor argument to a unit: a unit
object stands for itself, a string goes through the unit registry,
anything else is rejected. -/
def unitOf : PyValue ⊕ PqUnit → Except PyNNError PqUnit
  | .inr u => .ok u
  | .inl (.str s) =>
      match parseUnit s with
      | some u => .ok u
      | none => .error (.unknownUnit s)
  | .inl _ => .error (.unknownUnit "")

/-- `numpy.vstack` over the per-channel 1-D arrays produced by the
generator in `_extract_signals`: raises `ValueError` when there is no
array to stack or when the rows differ in length; otherwise the rows are
the channel lists themselves (an empty channel contributes a row of
length 0). -/
def vstack (chans : List (List ℚ)) : Except PyNNError (List (List ℚ)) :=
  match chans with
  | [] => .error (.valueError "need at least one array to concatenate")
  | c :: rest =>
      if rest.all (fun r => r.length = c.length) then .ok (c :: rest)
      else .error (.valueError "all the input array dimensions must match exactly")

/-- `_extract_signals(data, metadata)`: stack the extraction of every
channel in `[first_index, last_index]`, then build a multi-channel
`AnalogSignal` with the resolved units and `metadata['dt'] * pq.ms` as
sampling period, annotated with `label` and `variable`.  The stack of a
non-empty channel range always has at least one row, so the
`len(arr) > 0` guard always holds there; were it to fail, the final
`signal.annotate(...)` would hit the unassigned local `signal`
(`UnboundLocalError`) — the function can never return `None`. -/
def extract_signals (data : List (ℚ × ℚ)) (md : Metadata) :
    Except PyNNError AnalogSignal := do
  let fi ← getIntKey md "first_index"
  let li ← getIntKey md "last_index"
  let arr ← vstack ((intRange fi li).map (fun i => extract_array data i))
  if arr.length > 0 then do
    let u ← determine_units md
    let dtv ← getNumKey md "dt"
    let pu ← unitOf u
    let lab ← getKey md "label"
    let varv ← getKey md "variable"
    .ok { channels := arr, units := pu, sampling_period := ⟨dtv, msUnit⟩,
          annots := [("label", lab), ("variable", varv)] }
  else .error (.unboundLocal "signal")

/-- `_extract_spikes(data, metadata, channel_index)`: the spike times of
one channel; when non-empty, a `SpikeTrain` in `pq.ms` with
`t_stop = spike_times.max()`, annotated with `label`, `channel_index`
and `dt`; when empty, `None`. -/
def extract_spikes (data : List (ℚ × ℚ)) (md : Metadata) (channel_index : ℤ) :
    Except PyNNError (Option SpikeTrain) := do
  let spike_times := extract_array data channel_index
  if spike_times.length > 0 then do
    let lab ← getKey md "label"
    let dtv ← getKey md "dt"
    .ok (some { times := spike_times, units := msUnit,
                t_stop := listMax spike_times,
                annots := [("label", lab), ("channel_index", .int channel_index),
                           ("dt", dtv)] })
  else .ok none

/-- `metadata.get(k, 'unknown')`. -/
def defaultAnn (md : Metadata) (k : String) : PyValue :=
  (mdLookup k md).getD (.str "unknown")

/-- `read_segment()` on already-parsed `(data, metadata)`: segment
annotations from `label`/`variable`/`first_id`/`last_id` (default
`'unknown'`); for `variable == 'spikes'` one spike train per non-empty
channel in the index range plus a segment-level `dt` annotation,
otherwise one multi-channel analog signal.  The final
`create_many_to_one_relationship()` call only wires container
back-references and is outside the modelled state. -/
def read_segment (data : List (ℚ × ℚ)) (md : Metadata) :
    Except PyNNError Segment := do
  let ann : Metadata :=
    [("label", defaultAnn md "label"), ("variable", defaultAnn md "variable"),
     ("first_id", defaultAnn md "first_id"), ("last_id", defaultAnn md "last_id")]
  let varv ← getKey md "variable"
  if varv = .str "spikes" then do
    let fi ← getIntKey md "first_index"
    let li ← getIntKey md "last_index"
    let sts ← (intRange fi li).mapM (fun i => extract_spikes data md i)
    let dtv ← getKey md "dt"
    .ok { analogsignals := [], spiketrains := sts.filterMap id,
          annots := ann ++ [("dt", dtv)] }
  else do
    let sig ← extract_signals data md
    .ok { analogsignals := [sig], spiketrains := [], annots := ann }

/-- `read_analogsignal()`: `TypeError` on spike data, else the extracted
signal.  The source's `if signal is None: raise IndexError(...)` branch
is unreachable because `_extract_signals` either raises or returns a
constructed signal (see `extract_signals`). -/
def read_analogsignal (data : List (ℚ × ℚ)) (md : Metadata) :
    Except PyNNError AnalogSignal := do
  let varv ← getKey md "variable"
  if varv = .str "spikes" then
    .error (.formatMismatch "File contains spike data, not analog signals")
  else do
    let sig ← extract_signals data md
    .ok sig

/-- `read_spiketrain(channel_index)`: `TypeError` on non-spike data,
`IndexError` when the requested channel has no spikes. -/
def read_spiketrain (data : List (ℚ × ℚ)) (md : Metadata) (channel_index : ℤ) :
    Except PyNNError SpikeTrain := do
  let varv ← getKey md "variable"
  if varv ≠ .str "spikes" then
    .error (.formatMismatch "File contains analog signals, not spike data")
  else do
    match ← extract_spikes data md channel_index with
    | none => .error (.notFound
        ("File does not contain any spikes with channel index " ++
          String.mk (intChars channel_index)))
    | some st => .ok st

/-- The packing loop of `write_segment` (`for i, signal in
enumerate(source): data[start:end, 0] = signal.rescale(units);
data[start:end, 1] = i`): each channel is rescaled to the resolved
common unit and written as a block of `(value, position)` rows, the
position counter starting at `start` (0 at the call site). -/
def packLoop (u : PqUnit) : ℕ → List (List ℚ × PqUnit) →
    Except PyNNError (List (ℚ × ℚ))
  | _, [] => .ok []
  | i, (vals, cu) :: rest => do
      let rv ← rescaleList vals cu u
      let tail ← packLoop u (i + 1) rest
      .ok (rv.map (fun v => (v, (i : ℚ))) ++ tail)

/-- The metadata fields `size`, `first_index = 0`,
`last_index = size - 1` stored into a copy of the segment annotations
(shared by both `write_segment` branches). -/
def sizedMeta (ann : Metadata) (size : ℕ) : Metadata :=
  setKey (setKey (setKey ann "size" (.int (size : ℤ)))
    "first_index" (.int 0)) "last_index" (.int ((size : ℤ) - 1))

/-- `if 'label' not in metadata: metadata['label'] = 'unknown'`. -/
def withLabelDefault (md : Metadata) : Metadata :=
  if (mdLookup "label" md).isSome then md else setKey md "label" (.str "unknown")

/-- `if 'dt' not in metadata: metadata['dt'] =
s0.sampling_period.rescale(pq.ms).magnitude` for the analog branch. -/
def withDtAnalog (md : Metadata) (s0 : AnalogSignal) : Except PyNNError Metadata :=
  if (mdLookup "dt" md).isSome then pure md
  else do
    let dtv ← rescaleQ s0.sampling_period msUnit
    pure (setKey md "dt" (.float dtv))

/-- The same `dt` defaulting on the spike branch: `s0` is then a
`SpikeTrain`, which has no `sampling_period` attribute
(`AttributeError`). -/
def withDtSpikes (md : Metadata) : Except PyNNError Metadata :=
  if (mdLookup "dt" md).isSome then pure md
  else .error (.attributeMissing "SpikeTrain object has no attribute sampling_period")

/-- Resolution of the packing unit from the `variable` annotation: a
recognized `variable` takes its `UNITS_MAP` unit, otherwise the first
source element's dimensionality `du` is used; an absent `variable` also
records `metadata['variable'] = 'unknown'`. -/
def resolveUnits (ann : Metadata) (md : Metadata) (du : PqUnit) : PqUnit × Metadata :=
  match mdLookup "variable" ann with
  | some (.str v) => ((UNITS_MAP v).getD du, md)
  | some _ => (du, md)
  | none => (du, setKey md "variable" (.str "unknown"))

/-- The `write_segment` branch for a segment whose first source object
is an `AnalogSignal` (additional analog signals are dropped with a
warning): builds the metadata mapping (`size`, `first_index`,
`last_index`, default `label`, derived `dt`, `n`, resolved `variable` /
`units`) and packs `s0.T` channel by channel. -/
def write_analog (seg : Segment) (s0 : AnalogSignal) :
    Except PyNNError (List (ℚ × ℚ) × Metadata) := do
  -- `n = source.size`: for the rectangular numpy array `s0.T` this is the
  -- sum of the channel lengths, which is also exactly what the loop packs
  let md ← withDtAnalog (withLabelDefault (sizedMeta seg.annots s0.channels.length)) s0
  let md := setKey md "n" (.int ((s0.channels.map List.length).sum : ℤ))
  let um := resolveUnits seg.annots md s0.units
  let md := setKey um.2 "units" (.str um.1.symbol)
  let data ← packLoop um.1 0 (s0.channels.map (fun c => (c, s0.units)))
  .ok (data, md)

/-- The `write_segment` branch for a segment whose source list is the
spike trains: as `write_analog`, except that `size` is the number of
trains, a missing `dt` annotation hits `s0.sampling_period` on a
`SpikeTrain` (`AttributeError`), and each train is rescaled from its own
units. -/
def write_spikes (seg : Segment) (t0 : SpikeTrain) (ts : List SpikeTrain) :
    Except PyNNError (List (ℚ × ℚ) × Metadata) := do
  let source := t0 :: ts
  let md ← withDtSpikes (withLabelDefault (sizedMeta seg.annots source.length))
  let md := setKey md "n" (.int ((source.map (fun t => t.times.length)).sum : ℤ))
  let um := resolveUnits seg.annots md t0.units
  let md := setKey um.2 "units" (.str um.1.symbol)
  let data ← packLoop um.1 0 (source.map (fun t => (t.times, t.units)))
  .ok (data, md)

/-- `write_segment(segment)`: `source = segment.analogsignals or
segment.spiketrains`; the `assert len(source) > 0` guard fires
(`AssertionError`, the spec's `EmptySegmentError`) before anything else
when both lists are empty; the result is the `(data, metadata)` pair
handed to the concrete format driver — on error no driver call happens,
so no output file is created. -/
def write_segment (seg : Segment) :
    Except PyNNError (List (ℚ × ℚ) × Metadata) :=
  match seg.analogsignals with
  | s0 :: _ => write_analog seg s0
  | [] =>
    match seg.spiketrains with
    | [] => .error (.emptySegment "Segment contains neither analog signals nor spike trains.")
    | t0 :: ts => write_spikes seg t0 ts

/-! ### Format drivers -/

/-- Code-point lexicographic comparison of character lists — Python
string `<` (kernel-computable; `charsLt_iff` identifies it with the
library list order). -/
def charsLt : List Char → List Char → Bool
  | [], [] => false
  | [], _ :: _ => true
  | _ :: _, [] => false
  | a :: as, b :: bs =>
      if a.toNat < b.toNat then true
      else if b.toNat < a.toNat then false
      else charsLt as bs

/-- Python `<` on strings. -/
def strLt (a b : String) : Bool := charsLt a.data b.data

/-- Stable sort by key, modelling Python `sorted(metadata.items())`
(dict keys are unique, so comparison never reaches the values). -/
def insertSorted (a : String × PyValue) :
    List (String × PyValue) → List (String × PyValue)
  | [] => [a]
  | b :: rest => if strLt b.1 a.1 then b :: insertSorted a rest else a :: b :: rest

/-- `sorted(metadata.items())`. -/
def sortedItems : Metadata → Metadata
  | [] => []
  | a :: rest => insertSorted a (sortedItems rest)

/-- `PyNNNumpyIO._write_file_contents`: the `metadata` entry of the
archive — the sorted key/value pairs, stringified (the fixed column
width only pads the numpy array; each stored string is exactly
`str(v)`). -/
def numpyWriteMeta (md : Metadata) : List (String × String) :=
  (sortedItems md).map (fun kv => (kv.1, pyStr kv.2))

/-- `PyNNNumpyIO._read_file_contents`: rebuild the metadata dict,
decoding each value with `eval` and keeping the raw string on failure. -/
def numpyReadMeta (arr : List (String × String)) : Metadata :=
  arr.map (fun kv => (kv.1, decodeValue kv.2))

/-- `PyNNTextIO._write_file_contents`: the metadata header lines, one
`# key = value` line per sorted entry. -/
def textMetaLines (md : Metadata) : List String :=
  (sortedItems md).map (fun kv => "# " ++ kv.1 ++ " = " ++ pyStr kv.2 ++ "\n")

/-- The header-line items iterated by `PyNNTextIO._write_file_contents`
(shared `sorted(metadata.items())` shape with the binary driver). -/
def textMetaItems (md : Metadata) : Metadata := sortedItems md

/-- A whole binary-archive file: the flat data table (stored as float64,
hence exactly) and the stringified metadata entries. -/
def writeNumpyFile (seg : Segment) :
    Except PyNNError (List (ℚ × ℚ) × List (String × String)) := do
  let (data, md) ← write_segment seg
  .ok (data, numpyWriteMeta md)

/-- `read_segment` after `write_segment` through the binary-archive
driver (`numpy.savez` stores the float64 table exactly; metadata goes
through stringify-then-`eval`). -/
def writeReadNumpy (seg : Segment) : Except PyNNError Segment := do
  let (data, md) ← write_segment seg
  read_segment data (numpyReadMeta (numpyWriteMeta md))

/-! ### Decimal round-trip lemmas -/

theorem natDigitsAux_eq : ∀ f n, n ≤ f → natDigitsAux f n = Nat.digits 10 n := by
  intro f
  induction f with
  | zero =>
    intro n h
    interval_cases n
    rw [show natDigitsAux 0 0 = [] from rfl, Nat.digits_zero]
  | succ f ih =>
    intro n h
    match n with
    | 0 => rw [show natDigitsAux (f + 1) 0 = [] from rfl, Nat.digits_zero]
    | m + 1 =>
      have hdiv : (m + 1) / 10 ≤ f := by
        have := Nat.div_lt_self (Nat.succ_pos m) (by norm_num : 1 < 10)
        omega
      rw [show natDigitsAux (f + 1) (m + 1) = ((m + 1) % 10) :: natDigitsAux f ((m + 1) / 10) from rfl,
        ih _ hdiv, Nat.digits_def' (by norm_num : 1 < 10) (Nat.succ_pos m)]

theorem natDigits_eq (n : ℕ) : natDigits n = Nat.digits 10 n :=
  natDigitsAux_eq n n le_rfl

theorem digitVal_digitChar {d : ℕ} (h : d < 10) : digitVal (digitChar d) = d := by
  interval_cases d <;> rfl

theorem isDigitC_digitChar {d : ℕ} (h : d < 10) : isDigitC (digitChar d) = true := by
  interval_cases d <;> rfl

theorem parseNat_natChars (n : ℕ) : parseNatChars (natChars n) = some n := by
  rw [natChars]
  by_cases h0 : n = 0
  · subst h0
    rfl
  · rw [if_neg h0, natDigits_eq, parseNatChars, if_pos]
    · have hlt : ∀ d ∈ Nat.digits 10 n, d < 10 :=
        fun d hdm => Nat.digits_lt_base (by norm_num) hdm
      rw [List.map_reverse, List.reverse_reverse, List.map_map]
      have heq : (Nat.digits 10 n).map (digitVal ∘ digitChar) = (Nat.digits 10 n).map id :=
        List.map_congr_left (fun d hd => by simpa using digitVal_digitChar (hlt d hd))
      rw [heq, List.map_id, Nat.ofDigits_digits]
    · constructor
      · simp only [ne_eq, List.reverse_eq_nil_iff, List.map_eq_nil_iff]
        exact Nat.digits_ne_nil_iff_ne_zero.mpr h0
      · rw [List.all_eq_true]
        intro c hc
        rw [List.mem_reverse, List.mem_map] at hc
        obtain ⟨d, hd, rfl⟩ := hc
        exact isDigitC_digitChar (Nat.digits_lt_base (by norm_num) hd)

theorem natChars_digit (n : ℕ) : ∀ c ∈ natChars n, isDigitC c = true := by
  intro c hc
  by_cases h0 : n = 0
  · subst h0
    simp [natChars] at hc
    subst hc
    rfl
  · rw [natChars, if_neg h0, List.mem_reverse, List.mem_map] at hc
    obtain ⟨d, hd, rfl⟩ := hc
    rw [natDigits_eq] at hd
    exact isDigitC_digitChar (Nat.digits_lt_base (by norm_num) hd)

theorem natChars_head_ne_dash (n : ℕ) : (natChars n).head? ≠ some '-' := by
  intro h
  match hcs : natChars n with
  | [] => rw [hcs] at h; exact absurd h (by simp)
  | c :: rest =>
    rw [hcs] at h
    simp only [List.head?_cons, Option.some_inj] at h
    have hd := natChars_digit n c (by rw [hcs]; exact List.mem_cons_self ..)
    rw [h] at hd
    exact absurd hd (by decide)

theorem parseInt_intChars (n : ℤ) : parseIntChars (intChars n) = some n := by
  rw [intChars]
  by_cases hn : n < 0
  · rw [if_pos hn, parseIntChars, if_pos (by simp), List.tail_cons, parseNat_natChars]
    show some (-(n.natAbs : ℤ)) = some n
    congr 1
    omega
  · rw [if_neg hn, parseIntChars, if_neg (natChars_head_ne_dash n.natAbs), parseNat_natChars]
    show some ((n.natAbs : ℤ)) = some n
    congr 1
    omega

theorem pyEval_intChars (n : ℤ) : pyEval ⟨intChars n⟩ = some (.int n) := by
  unfold pyEval
  rw [show (String.mk (intChars n)).data = intChars n from rfl, parseInt_intChars n]

theorem decodePy_int (n : ℤ) : decodePy (.int n) = .int n := by
  rw [decodePy, pyStr, decodeValue, pyEval_intChars]
  rfl

theorem decodePy_str (s : String) (h : decodeValue s = .str s) : decodePy (.str s) = .str s := by
  rw [decodePy, pyStr]
  exact h

/-! ### Dictionary lemmas -/

theorem mdLookup_setKey_self (m : Metadata) (k : String) (v : PyValue) :
    mdLookup k (setKey m k v) = some v := by
  induction m with
  | nil => simp [setKey, mdLookup]
  | cons kv rest ih =>
    obtain ⟨k1, v1⟩ := kv
    by_cases h : k = k1
    · subst h
      simp [setKey, mdLookup]
    · rw [setKey, if_neg h, mdLookup, if_neg h]
      exact ih

theorem mdLookup_setKey_ne (m : Metadata) {k k1 : String} (v : PyValue) (h : k ≠ k1) :
    mdLookup k (setKey m k1 v) = mdLookup k m := by
  induction m with
  | nil => simp [setKey, mdLookup, h]
  | cons kv rest ih =>
    obtain ⟨k2, v2⟩ := kv
    by_cases h2 : k1 = k2
    · subst h2
      rw [setKey, if_pos rfl, mdLookup, mdLookup, if_neg h, if_neg h]
    · rw [setKey, if_neg h2, mdLookup, mdLookup]
      by_cases h3 : k = k2
      · rw [if_pos h3, if_pos h3]
      · rw [if_neg h3, if_neg h3]
        exact ih

theorem mem_keys_setKey {m : Metadata} {k x : String} {v : PyValue} :
    x ∈ (setKey m k v).map Prod.fst ↔ x ∈ m.map Prod.fst ∨ x = k := by
  induction m with
  | nil => simp [setKey]
  | cons kv rest ih =>
    obtain ⟨k1, v1⟩ := kv
    by_cases h : k = k1
    · subst h
      simp [setKey]
      tauto
    · rw [setKey, if_neg h]
      simp only [List.map_cons, List.mem_cons, ih]
      tauto

theorem nodup_keys_setKey {m : Metadata} (k : String) (v : PyValue)
    (h : (m.map Prod.fst).Nodup) : ((setKey m k v).map Prod.fst).Nodup := by
  induction m with
  | nil => simp [setKey]
  | cons kv rest ih =>
    obtain ⟨k1, v1⟩ := kv
    simp only [List.map_cons, List.nodup_cons] at h
    by_cases hk : k = k1
    · subst hk
      rw [setKey, if_pos rfl]
      simp only [List.map_cons, List.nodup_cons]
      exact h
    · rw [setKey, if_neg hk]
      simp only [List.map_cons, List.nodup_cons]
      refine ⟨?_, ih h.2⟩
      rw [mem_keys_setKey]
      rintro (hmem | rfl)
      · exact h.1 hmem
      · exact hk rfl

/-! ### Sorting lemmas -/

theorem insertSorted_perm (a : String × PyValue) (l : List (String × PyValue)) :
    (insertSorted a l).Perm (a :: l) := by
  induction l with
  | nil => rfl
  | cons b rest ih =>
    rw [insertSorted]
    by_cases h : strLt b.1 a.1
    · rw [if_pos h]
      exact (ih.cons b).trans (List.Perm.swap a b rest)
    · rw [if_neg h]

theorem sortedItems_perm (m : Metadata) : (sortedItems m).Perm m := by
  induction m with
  | nil => rfl
  | cons a rest ih => exact (insertSorted_perm a (sortedItems rest)).trans (ih.cons a)

theorem mdLookup_perm {l₁ l₂ : Metadata} (p : l₁.Perm l₂)
    (k : String) (nd : (l₁.map Prod.fst).Nodup) : mdLookup k l₁ = mdLookup k l₂ := by
  induction p with
  | nil => rfl
  | cons a p ih =>
    obtain ⟨k1, v1⟩ := a
    simp only [List.map_cons, List.nodup_cons] at nd
    rw [mdLookup, mdLookup]
    by_cases h : k = k1
    · rw [if_pos h, if_pos h]
    · rw [if_neg h, if_neg h]
      exact ih nd.2
  | swap a b l =>
    obtain ⟨k1, v1⟩ := a
    obtain ⟨k2, v2⟩ := b
    have hne : k2 ≠ k1 := by
      simp only [List.map_cons, List.nodup_cons, List.mem_cons, not_or] at nd
      exact nd.1.1
    by_cases h2 : k = k2
    · subst h2
      simp only [mdLookup, if_pos rfl, if_neg hne]
    · by_cases h1 : k = k1
      · subst h1
        simp only [mdLookup, if_pos rfl, if_neg h2]
      · simp only [mdLookup, if_neg h1, if_neg h2]
  | trans p1 p2 ih1 ih2 =>
    rw [ih1 nd]
    apply ih2
    have : (List.map Prod.fst _).Perm (List.map Prod.fst _) := p1.map Prod.fst
    exact this.nodup_iff.mp nd

theorem mdLookup_sortedItems (m : Metadata) (k : String)
    (nd : (m.map Prod.fst).Nodup) : mdLookup k (sortedItems m) = mdLookup k m := by
  have hp := sortedItems_perm m
  exact mdLookup_perm hp k (((hp.map Prod.fst).nodup_iff).mpr nd)

theorem mdLookup_map_snd (m : Metadata) (k : String) (f : PyValue → PyValue) :
    mdLookup k (m.map (fun kv => (kv.1, f kv.2))) = (mdLookup k m).map f := by
  induction m with
  | nil => rfl
  | cons kv rest ih =>
    obtain ⟨k1, v1⟩ := kv
    rw [List.map_cons, mdLookup, mdLookup]
    by_cases h : k = k1
    · rw [if_pos h, if_pos h, Option.map_some']
    · rw [if_neg h, if_neg h]
      exact ih

/-- What any metadata lookup sees after a write/read cycle through the
binary driver: the stored value, stringified then decoded. -/
theorem mdLookup_numpyRoundtrip (m : Metadata) (k : String)
    (nd : (m.map Prod.fst).Nodup) :
    mdLookup k (numpyReadMeta (numpyWriteMeta m)) = (mdLookup k m).map decodePy := by
  rw [numpyReadMeta, numpyWriteMeta, List.map_map]
  have : (fun kv : String × String => (kv.1, decodeValue kv.2)) ∘
      (fun kv : String × PyValue => (kv.1, pyStr kv.2)) =
      fun kv : String × PyValue => (kv.1, decodePy kv.2) := rfl
  rw [this, mdLookup_map_snd, mdLookup_sortedItems m k nd]

/-! ### Packing and extraction lemmas -/

/-- The flat table produced by packing channels that are already in the
target unit, with the position counter starting at `s`. -/
def flatPack : List (List ℚ) → ℕ → List (ℚ × ℚ)
  | [], _ => []
  | c :: rest, s => c.map (fun v => (v, (s : ℚ))) ++ flatPack rest (s + 1)

theorem rescaleList_self (c : List ℚ) (u : PqUnit) (hs : u.scale ≠ 0) :
    rescaleList c u u = .ok c := by
  rw [rescaleList, if_pos rfl]
  congr 1
  have hid : ∀ v : ℚ, qDiv (qMul v u.scale) u.scale = v := by
    intro v
    rw [qDiv_eq, qMul_eq, mul_div_assoc, div_self hs, mul_one]
  calc c.map (fun v => qDiv (qMul v u.scale) u.scale)
      = c.map id := List.map_congr_left (fun v _ => hid v)
    _ = c := List.map_id c

theorem packLoop_self (u : PqUnit) (hs : u.scale ≠ 0) :
    ∀ (chans : List (List ℚ)) (s : ℕ),
      packLoop u s (chans.map (fun c => (c, u))) = .ok (flatPack chans s) := by
  intro chans
  induction chans with
  | nil => intro s; rfl
  | cons c rest ih =>
    intro s
    rw [List.map_cons, packLoop, rescaleList_self c u hs, flatPack]
    show (Except.ok c).bind _ = _
    rw [Except.bind, ih (s + 1)]
    rfl

theorem filter_flatPack_nil : ∀ (chans : List (List ℚ)) (s : ℕ) (t : ℚ),
    (∀ j : ℕ, j < chans.length → t ≠ ((s + j : ℕ) : ℚ)) →
    (flatPack chans s).filter (fun r => decide (r.2 = t)) = [] := by
  intro chans
  induction chans with
  | nil => intro s t _; rfl
  | cons c rest ih =>
    intro s t ht
    rw [flatPack, List.filter_append]
    rw [ih (s + 1) t (fun j hj => by
      have := ht (j + 1) (by simpa using hj)
      intro he
      apply this
      rw [he]
      congr 1
      omega)]
    rw [List.append_nil, List.filter_eq_nil_iff]
    intro r hr
    rw [List.mem_map] at hr
    obtain ⟨v, _, rfl⟩ := hr
    simp only [decide_eq_true_eq]
    intro he
    exact ht 0 (Nat.succ_pos _) (by rw [← he]; norm_num)

theorem extract_flatPack : ∀ (chans : List (List ℚ)) (s i : ℕ) (hi : i < chans.length),
    extract_array (flatPack chans s) ((s + i : ℕ) : ℤ) = chans.get ⟨i, hi⟩ := by
  intro chans
  induction chans with
  | nil =>
    intro s i hi
    exact absurd hi (by simp)
  | cons c rest ih =>
    intro s i hi
    match i with
    | 0 =>
      rw [extract_array, flatPack, List.filter_append]
      have h2 : (flatPack rest (s + 1)).filter
          (fun r => decide (r.2 = ((((s + 0 : ℕ) : ℤ)) : ℚ))) = [] := by
        apply filter_flatPack_nil
        intro j hj he
        rw [Int.cast_natCast] at he
        have : (s + 0 : ℕ) = (s + 1 + j : ℕ) := by exact_mod_cast he
        omega
      rw [h2, List.append_nil]
      have h1 : (c.map (fun v => (v, (s : ℚ)))).filter
          (fun r => decide (r.2 = ((((s + 0 : ℕ) : ℤ)) : ℚ))) = c.map (fun v => (v, (s : ℚ))) := by
        rw [List.filter_eq_self]
        intro r hr
        rw [List.mem_map] at hr
        obtain ⟨v, _, rfl⟩ := hr
        simp
      rw [h1, List.map_map]
      show c.map (Prod.fst ∘ fun v => (v, (s : ℚ))) = c
      rw [show (Prod.fst ∘ fun v : ℚ => (v, (s : ℚ))) = id from rfl, List.map_id]
    | i + 1 =>
      rw [extract_array, flatPack, List.filter_append]
      have h1 : (c.map (fun v => (v, (s : ℚ)))).filter
          (fun r => decide (r.2 = ((((s + (i + 1) : ℕ) : ℤ)) : ℚ))) = [] := by
        rw [List.filter_eq_nil_iff]
        intro r hr
        rw [List.mem_map] at hr
        obtain ⟨v, _, rfl⟩ := hr
        simp only [decide_eq_true_eq]
        intro he
        rw [Int.cast_natCast] at he
        have : (s : ℚ) = ((s + (i + 1) : ℕ) : ℚ) := he
        have : (s : ℕ) = (s + (i + 1) : ℕ) := by exact_mod_cast this
        omega
      rw [h1, List.nil_append]
      have hc : ((s + (i + 1) : ℕ) : ℤ) = (((s + 1) + i : ℕ) : ℤ) := by
        congr 1
        omega
      rw [show (List.filter (fun r => decide (r.2 = ((((s + (i + 1) : ℕ) : ℤ)) : ℚ)))
            (flatPack rest (s + 1))).map Prod.fst
          = extract_array (flatPack rest (s + 1)) ((s + (i + 1) : ℕ) : ℤ) from rfl]
      rw [hc, ih (s + 1) i (by simpa using hi)]
      rfl

theorem extract_channels (chans : List (List ℚ)) :
    (intRange 0 ((chans.length : ℤ) - 1)).map
      (fun i => extract_array (flatPack chans 0) i) = chans := by
  have hr : intRange 0 ((chans.length : ℤ) - 1)
      = (List.range chans.length).map (fun (k : ℕ) => (k : ℤ)) := by
    rw [intRange]
    have : ((chans.length : ℤ) - 1 + 1 - 0).toNat = chans.length := by omega
    rw [this]
    exact List.map_congr_left (fun k _ => by omega)
  rw [hr, List.map_map]
  apply List.ext_getElem
  · rw [List.length_map, List.length_range]
  · intro n h1 h2
    rw [List.getElem_map, List.getElem_range]
    show extract_array (flatPack chans 0) ((n : ℕ) : ℤ) = chans[n]
    have h3 := extract_flatPack chans 0 n h2
    rw [show ((0 + n : ℕ) : ℤ) = ((n : ℕ) : ℤ) by omega] at h3
    exact h3

/-! ### Maximum lemmas -/

theorem foldl_max_bounds : ∀ (xs : List ℚ) (a : ℚ),
    a ≤ xs.foldl max a ∧ ∀ b ∈ xs, b ≤ xs.foldl max a := by
  intro xs
  induction xs with
  | nil =>
    intro a
    exact ⟨le_refl a, by simp⟩
  | cons x rest ih =>
    intro a
    refine ⟨le_trans (le_max_left a x) (ih (max a x)).1, ?_⟩
    intro b hb
    rcases List.mem_cons.mp hb with rfl | hb
    · exact le_trans (le_max_right a b) (ih (max a b)).1
    · exact (ih (max a x)).2 b hb

theorem foldl_max_mem : ∀ (xs : List ℚ) (a : ℚ),
    xs.foldl max a = a ∨ xs.foldl max a ∈ xs := by
  intro xs
  induction xs with
  | nil => intro a; exact Or.inl rfl
  | cons x rest ih =>
    intro a
    rw [List.foldl_cons]
    rcases ih (max a x) with h | h
    · rcases max_choice a x with he | he
      · left
        rw [h, he]
      · right
        rw [h, he]
        exact List.mem_cons_self ..
    · right
      exact List.mem_cons_of_mem x h

theorem listMax_mem {xs : List ℚ} (h : xs ≠ []) : listMax xs ∈ xs := by
  match xs with
  | [] => exact absurd rfl h
  | x :: rest =>
    rw [listMax]
    rcases foldl_max_mem rest x with he | he
    · rw [he]
      exact List.mem_cons_self ..
    · exact List.mem_cons_of_mem x he

theorem le_listMax {xs : List ℚ} {b : ℚ} (hb : b ∈ xs) : b ≤ listMax xs := by
  match xs with
  | [] => exact absurd hb (List.not_mem_nil b)
  | x :: rest =>
    rw [listMax]
    rcases List.mem_cons.mp hb with rfl | hb
    · exact (foldl_max_bounds rest b).1
    · exact (foldl_max_bounds rest x).2 b hb

/-! ### String order lemmas -/

theorem char_eq_of_toNat_eq {a b : Char} (h : a.toNat = b.toNat) : a = b :=
  Char.eq_of_val_eq (UInt32.eq_of_toBitVec_eq (BitVec.toNat_injective h))

theorem charsLt_iff : ∀ l₁ l₂ : List Char, charsLt l₁ l₂ = true ↔ l₁ < l₂ := by
  intro l₁
  induction l₁ with
  | nil =>
    intro l₂
    match l₂ with
    | [] =>
      constructor
      · intro h
        exact absurd h (by decide)
      · intro h
        exact absurd h (List.Lex.not_nil_right _ _)
    | b :: bs =>
      constructor
      · intro _
        exact List.Lex.nil
      · intro _
        rfl
  | cons a as ih =>
    intro l₂
    match l₂ with
    | [] =>
      constructor
      · intro h
        exact absurd h (by simp [charsLt])
      · intro h
        exact absurd h (List.Lex.not_nil_right _ _)
    | b :: bs =>
      rw [charsLt]
      by_cases hab : a.toNat < b.toNat
      · rw [if_pos hab]
        constructor
        · intro _
          exact List.Lex.rel hab
        · intro _
          rfl
      · rw [if_neg hab]
        by_cases hba : b.toNat < a.toNat
        · rw [if_pos hba]
          constructor
          · intro h
            exact absurd h (by decide)
          · intro h
            cases h with
            | cons h1 => exact absurd hba (lt_irrefl _)
            | rel h1 => exact absurd h1 hab
        · rw [if_neg hba]
          have hEq : a = b := char_eq_of_toNat_eq (by omega)
          subst hEq
          constructor
          · intro h
            exact List.Lex.cons ((ih bs).mp h)
          · intro h
            cases h with
            | cons h1 => exact (ih bs).mpr h1
            | rel h1 => exact absurd h1 hab

theorem strLt_iff (a b : String) : strLt a b = true ↔ a < b := by
  rw [String.lt_iff_toList_lt]
  exact charsLt_iff a.data b.data

/-- The key order used by the metadata sort. -/
def keyLe (x y : String × PyValue) : Prop := x.1 ≤ y.1

theorem insertSorted_pairwise (a : String × PyValue) (l : List (String × PyValue))
    (h : l.Pairwise keyLe) : (insertSorted a l).Pairwise keyLe := by
  induction l with
  | nil => simp [insertSorted, keyLe]
  | cons b rest ih =>
    rw [insertSorted]
    rw [List.pairwise_cons] at h
    by_cases hlt : strLt b.1 a.1
    · rw [if_pos hlt, List.pairwise_cons]
      refine ⟨?_, ih h.2⟩
      intro y hy
      rcases List.mem_cons.mp ((insertSorted_perm a rest).mem_iff.mp hy) with rfl | hy2
      · exact le_of_lt ((strLt_iff _ _).mp hlt)
      · exact h.1 y hy2
    · rw [if_neg hlt, List.pairwise_cons]
      have hab : keyLe a b := not_lt.mp (fun hl => hlt ((strLt_iff b.1 a.1).mpr hl))
      refine ⟨?_, List.Pairwise.cons h.1 h.2⟩
      intro y hy
      rcases List.mem_cons.mp hy with rfl | hy2
      · exact hab
      · exact le_trans hab (h.1 y hy2)

theorem sortedItems_pairwise (m : Metadata) : (sortedItems m).Pairwise keyLe := by
  induction m with
  | nil => exact List.Pairwise.nil
  | cons a rest ih => exact insertSorted_pairwise a (sortedItems rest) ih

theorem except_bind_ok {α β : Type} (a : α) (f : α → Except PyNNError β) :
    (Except.ok a : Except PyNNError α) >>= f = f a := rfl

theorem except_bind_error {α β : Type} (e : PyNNError) (f : α → Except PyNNError β) :
    (Except.error e : Except PyNNError α) >>= f = .error e := rfl

/-! ### Claim theorems -/

/-- Claim C2: unit resolution follows exactly this order — an explicit
`units` entry is returned as-is (winning even when a recognized
`variable` maps to a different unit, since the `variable` branch is
never consulted); otherwise `variable` equal to one of the three
well-known kinds spikes / v / gsyn yields the canonical unit ms / mV /
µS; otherwise the call fails with the unit-resolution error (an
`IOError` in the source). -/
theorem C2_unit_resolution (md : Metadata) :
    (∀ v, mdLookup "units" md = some v → determine_units md = .ok (.inl v)) ∧
    (mdLookup "units" md = none →
      (mdLookup "variable" md = some (.str "spikes") →
        determine_units md = .ok (.inr msUnit)) ∧
      (mdLookup "variable" md = some (.str "v") →
        determine_units md = .ok (.inr mVUnit)) ∧
      (mdLookup "variable" md = some (.str "gsyn") →
        determine_units md = .ok (.inr uSUnit))) ∧
    (mdLookup "units" md = none →
      (∀ s, mdLookup "variable" md = some (.str s) →
        s ≠ "spikes" ∧ s ≠ "v" ∧ s ≠ "gsyn") →
      determine_units md = .error (.unitResolution "Cannot determine units")) := by
  refine ⟨?_, ?_, ?_⟩
  · intro v hv
    rw [determine_units, hv]
  · intro hu
    refine ⟨?_, ?_, ?_⟩ <;> intro hv <;> rw [determine_units, hu, hv] <;> rfl
  · intro hu hnv
    rw [determine_units, hu]
    match hv : mdLookup "variable" md with
    | none => rfl
    | some (.int n) => rfl
    | some (.float q) => rfl
    | some (.bool b) => rfl
    | some (.str s) =>
      obtain ⟨h1, h2, h3⟩ := hnv s hv
      have hmap : UNITS_MAP s = none := by
        rw [UNITS_MAP, if_neg h1, if_neg h2, if_neg h3]
      show (match UNITS_MAP s with
        | some u => Except.ok (Sum.inr u)
        | none =>
            Except.error (PyNNError.unitResolution "Cannot determine units")) =
        Except.error (PyNNError.unitResolution "Cannot determine units")
      rw [hmap]

/-- Witness for C2 at concrete metadata: an explicit `units` entry wins
over the recognized `variable` `v` (whose canonical unit differs), a
bare recognized `variable` resolves canonically, and an unrecognized
`variable` fails. -/
theorem C2_unit_resolution_witness :
    determine_units [("units", .str "nA"), ("variable", .str "v")] = .ok (.inl (.str "nA")) ∧
    determine_units [("variable", .str "spikes")] = .ok (.inr msUnit) ∧
    determine_units [("variable", .str "current")] =
      .error (.unitResolution "Cannot determine units") :=
  ⟨(C2_unit_resolution [("units", .str "nA"), ("variable", .str "v")]).1 _ rfl,
   ((C2_unit_resolution [("variable", .str "spikes")]).2.1 rfl).1 rfl,
   (C2_unit_resolution [("variable", .str "current")]).2.2 rfl (fun s hs => by
      have hse : PyValue.str "current" = PyValue.str s := by
        rw [show mdLookup "variable" [("variable", PyValue.str "current")] =
          some (.str "current") from rfl] at hs
        exact Option.some_inj.mp hs
      obtain rfl : "current" = s := by
        cases hse
        rfl
      refine ⟨by decide, by decide, by decide⟩)⟩

/-- Claim C4 (code bug): the spec requires a narrow safe literal parser
for on-disk metadata values, but the read path calls `eval`, an
arbitrary-expression evaluator: on the value string `1+1` the code
computes the integer 2 where the specified literal parser keeps the
plain string `1+1`. -/
theorem C4_eval_not_literal_decoder :
    decodeValue "1+1" = .int 2 ∧ safeLiteralParse "1+1" = .str "1+1" ∧
      PyValue.int 2 ≠ PyValue.str "1+1" := by decide

/-- Claim C5: `read_analogsignal` on a file whose `variable` is
`spikes` fails with the format-mismatch error, and `read_spiketrain` on
a file whose `variable` is present and not `spikes` fails with the
symmetric format-mismatch error (both `TypeError` in the source). -/
theorem C5_format_mismatch (data : List (ℚ × ℚ)) (md : Metadata) :
    (mdLookup "variable" md = some (.str "spikes") →
      read_analogsignal data md =
        .error (.formatMismatch "File contains spike data, not analog signals")) ∧
    (∀ v, mdLookup "variable" md = some v → v ≠ .str "spikes" → ∀ ci : ℤ,
      read_spiketrain data md ci =
        .error (.formatMismatch "File contains analog signals, not spike data")) := by
  constructor
  · intro hv
    rw [read_analogsignal, getKey, hv]
    rfl
  · intro v hv hne ci
    rw [read_spiketrain, getKey, hv]
    show (if v ≠ PyValue.str "spikes" then _ else _) = _
    rw [if_pos hne]

/-- Witness for C5 at concrete inputs. -/
theorem C5_format_mismatch_witness :
    read_analogsignal [(3, 0)] [("variable", .str "spikes")] =
      .error (.formatMismatch "File contains spike data, not analog signals") ∧
    read_spiketrain [(3, 0)] [("variable", .str "v")] 0 =
      .error (.formatMismatch "File contains analog signals, not spike data") :=
  ⟨(C5_format_mismatch [(3, 0)] [("variable", .str "spikes")]).1 rfl,
   (C5_format_mismatch [(3, 0)] [("variable", .str "v")]).2 (.str "v") rfl (by decide) 0⟩

/-- The C6 failing input: a file with no data rows at all, declared as a
one-channel continuous-variable recording. -/
def dataC6 : List (ℚ × ℚ) := []

/-- Metadata of the C6 failing input. -/
def mdC6 : Metadata :=
  [("variable", .str "v"), ("first_index", .int 0), ("last_index", .int 0),
   ("dt", .float (mkRat 1 10)), ("label", .str "cell")]

/-- Claim C6 (code bug): the spec (and the dead
`if signal is None: raise IndexError` in `read_analogsignal`) promises
the not-found error when extraction yields no rows, but
`_extract_signals` stacks one length-0 row per channel, so
`len(arr) > 0` holds, a signal with zero samples is built, `None` is
never returned, and `read_analogsignal` succeeds with an empty signal
instead of failing. -/
theorem C6_empty_extraction_returns_signal :
    read_analogsignal dataC6 mdC6 =
      .ok { channels := [[]], units := mVUnit, sampling_period := ⟨mkRat 1 10, msUnit⟩,
            annots := [("label", .str "cell"), ("variable", .str "v")] } := by decide

/-- Claim C7: on spike data, requesting a channel index with no rows
fails with the not-found error (`IndexError` naming the channel). -/
theorem C7_spiketrain_not_found (data : List (ℚ × ℚ)) (md : Metadata) (ci : ℤ)
    (hv : mdLookup "variable" md = some (.str "spikes"))
    (he : extract_array data ci = []) :
    read_spiketrain data md ci = .error (.notFound
      ("File does not contain any spikes with channel index " ++ String.mk (intChars ci))) := by
  rw [read_spiketrain, getKey, hv, except_bind_ok,
    if_neg (by simp : ¬(PyValue.str "spikes" ≠ PyValue.str "spikes"))]
  rw [extract_spikes, he]
  rfl

/-- Witness for C7: data with rows only at channels 0 and 1, queried at
channel 5. -/
theorem C7_spiketrain_not_found_witness :
    read_spiketrain [(3, 0), (4, 1)]
      [("variable", .str "spikes"), ("first_index", .int 0), ("last_index", .int 1),
       ("dt", .float (mkRat 1 10)), ("label", .str "cell")] 5 =
    .error (.notFound "File does not contain any spikes with channel index 5") :=
  C7_spiketrain_not_found [(3, 0), (4, 1)] _ 5 rfl (by decide)

/-- Claim C8: a segment with neither analog signals nor spike trains is
rejected by the assertion at the top of `write_segment` (the spec's
`EmptySegmentError`), before any `(data, metadata)` pair exists, so no
driver write happens and no output file is created. -/
theorem C8_empty_segment (seg : Segment)
    (ha : seg.analogsignals = []) (hs : seg.spiketrains = []) :
    write_segment seg =
      .error (.emptySegment "Segment contains neither analog signals nor spike trains.") ∧
    writeNumpyFile seg =
      .error (.emptySegment "Segment contains neither analog signals nor spike trains.") := by
  have h1 : write_segment seg =
      .error (.emptySegment "Segment contains neither analog signals nor spike trains.") := by
    rw [write_segment, ha, hs]
  refine ⟨h1, ?_⟩
  rw [writeNumpyFile, h1]
  rfl

/-- Witness for C8 at a concrete empty segment. -/
theorem C8_empty_segment_witness :
    write_segment { analogsignals := [], spiketrains := [], annots := [("label", .str "x")] } =
      .error (.emptySegment "Segment contains neither analog signals nor spike trains.") ∧
    writeNumpyFile { analogsignals := [], spiketrains := [], annots := [("label", .str "x")] } =
      .error (.emptySegment "Segment contains neither analog signals nor spike trains.") :=
  C8_empty_segment _ rfl rfl

/-- Claim C10: a spike train built by a non-empty extraction has
`t_stop = spike_times.max()`: the bound is itself one of the extracted
times and every event time is at most `t_stop`. -/
theorem C10_tstop_is_max (data : List (ℚ × ℚ)) (md : Metadata) (ci : ℤ) (st : SpikeTrain)
    (h : extract_spikes data md ci = .ok (some st)) :
    st.t_stop ∈ st.times ∧ ∀ t ∈ st.times, t ≤ st.t_stop := by
  rw [extract_spikes] at h
  by_cases hl : (extract_array data ci).length > 0
  · rw [if_pos hl] at h
    cases hlab : getKey md "label" with
    | error e =>
      rw [hlab, except_bind_error] at h
      exact Except.noConfusion h
    | ok lab =>
      rw [hlab, except_bind_ok] at h
      cases hdt : getKey md "dt" with
      | error e =>
        rw [hdt, except_bind_error] at h
        exact Except.noConfusion h
      | ok dtv =>
        rw [hdt, except_bind_ok] at h
        injection h with h
        injection h with h
        have hne : extract_array data ci ≠ [] := by
          intro hnil
          rw [hnil] at hl
          exact absurd hl (by decide)
        rw [← h]
        exact ⟨listMax_mem hne, fun t ht => le_listMax ht⟩
  · rw [if_neg hl] at h
    injection h with h
    exact Option.noConfusion h

/-- Witness for C10 at a concrete non-empty extraction. -/
theorem C10_tstop_is_max_witness :
    extract_spikes [(3, 0), (7, 0), (2, 0)]
      [("label", .str "cell"), ("dt", .float (mkRat 1 10))] 0 =
      .ok (some
        { times := [3, 7, 2], units := msUnit, t_stop := 7,
          annots := [("label", .str "cell"), ("channel_index", .int 0),
                     ("dt", .float (mkRat 1 10))] }) ∧
    (7 : ℚ) ∈ [(3 : ℚ), 7, 2] ∧ ∀ t ∈ [(3 : ℚ), 7, 2], t ≤ (7 : ℚ) := by
  constructor
  · decide
  · exact C10_tstop_is_max [(3, 0), (7, 0), (2, 0)]
      [("label", .str "cell"), ("dt", .float (mkRat 1 10))] 0
      { times := [3, 7, 2], units := msUnit, t_stop := 7,
        annots := [("label", .str "cell"), ("channel_index", .int 0),
                   ("dt", .float (mkRat 1 10))] } (by decide)

/-- The concrete metadata mapping of the C9 example. -/
def mdC9ex : Metadata :=
  [("label", .str "x"), ("dt", .float (mkRat 1 10)), ("variable", .str "v")]

/-- Claim C9: both format drivers iterate `sorted(metadata.items())`, so
the on-disk key/value entries appear in lexicographically sorted key
order; on the example mapping the keys come out `dt, label, variable`
for the binary entries and the text header lines alike. -/
theorem C9_metadata_sorted (m : Metadata) :
    ((numpyWriteMeta m).map Prod.fst).Pairwise (fun a b => a ≤ b) ∧
    ((textMetaItems m).map Prod.fst).Pairwise (fun a b => a ≤ b) ∧
    (numpyWriteMeta mdC9ex).map Prod.fst = ["dt", "label", "variable"] ∧
    textMetaLines mdC9ex = ["# dt = 0.1\n", "# label = x\n", "# variable = v\n"] := by
  refine ⟨?_, ?_, by decide, by decide⟩
  · rw [numpyWriteMeta, List.map_map]
    rw [show (Prod.fst ∘ fun kv : String × PyValue => (kv.1, pyStr kv.2)) = Prod.fst from rfl]
    rw [List.pairwise_map]
    exact sortedItems_pairwise m
  · rw [textMetaItems, List.pairwise_map]
    exact sortedItems_pairwise m

theorem flatPack_length : ∀ (chans : List (List ℚ)) (s : ℕ),
    (flatPack chans s).length = (chans.map List.length).sum := by
  intro chans
  induction chans with
  | nil => intro s; rfl
  | cons c rest ih =>
    intro s
    rw [flatPack, List.length_append, List.length_map, ih, List.map_cons, List.sum_cons]

theorem flatPack_col0 : ∀ (chans : List (List ℚ)) (s : ℕ),
    (flatPack chans s).map Prod.fst = chans.flatten := by
  intro chans
  induction chans with
  | nil => intro s; rfl
  | cons c rest ih =>
    intro s
    rw [flatPack, List.map_append, List.map_map, ih, List.flatten_cons]
    rw [show (Prod.fst ∘ fun v : ℚ => (v, (s : ℚ))) = id from rfl, List.map_id]

/-- The packing loop, when it succeeds, produces exactly the flat table
of the rescaled channels. -/
theorem packLoop_eq_flatPack :
    ∀ (chans : List (List ℚ × PqUnit)) (u : PqUnit) (s : ℕ) (flat : List (ℚ × ℚ)),
      packLoop u s chans = .ok flat →
      flat = flatPack (chans.map (fun c => c.1.map (fun v => v * c.2.scale / u.scale))) s := by
  intro chans
  induction chans with
  | nil =>
    intro u s flat h
    injection h with h
    rw [← h]
    rfl
  | cons c rest ih =>
    obtain ⟨vals, cu⟩ := c
    intro u s flat h
    rw [packLoop] at h
    cases hr : rescaleList vals cu u with
    | error e =>
      rw [hr, except_bind_error] at h
      exact Except.noConfusion h
    | ok rv =>
      rw [hr, except_bind_ok] at h
      cases ht : packLoop u (s + 1) rest with
      | error e =>
        rw [ht, except_bind_error] at h
        exact Except.noConfusion h
      | ok tail =>
        rw [ht, except_bind_ok] at h
        injection h with h
        have hrv : rv = vals.map (fun v => v * cu.scale / u.scale) := by
          rw [rescaleList] at hr
          by_cases hd : cu.dim = u.dim
          · rw [if_pos hd] at hr
            injection hr with hr
            rw [← hr]
            exact List.map_congr_left (fun v _ => by rw [qDiv_eq, qMul_eq])
          · rw [if_neg hd] at hr
            exact Except.noConfusion hr
        rw [← h, hrv, ih u (s + 1) tail ht]
        rfl

/-- What `write_analog` produces for a well-formed analog segment: the
flat table of the (identity-rescaled) channels, and a metadata mapping
whose read-relevant entries are pinned down. -/
theorem write_analog_spec (seg : Segment) (sig : AnalogSignal) (v lab : String)
    (hnd : (seg.annots.map Prod.fst).Nodup)
    (hvar : mdLookup "variable" seg.annots = some (.str v))
    (hunit : (UNITS_MAP v).getD sig.units = sig.units)
    (hlab : mdLookup "label" seg.annots = some (.str lab))
    (hdtA : mdLookup "dt" seg.annots = none)
    (hdim : sig.sampling_period.unit.dim = "time")
    (hscale : sig.units.scale ≠ 0) :
    ∃ md : Metadata,
      write_analog seg sig = .ok (flatPack sig.channels 0, md) ∧
      mdLookup "variable" md = some (.str v) ∧
      mdLookup "label" md = some (.str lab) ∧
      mdLookup "dt" md = some (.float
        (sig.sampling_period.mag * sig.sampling_period.unit.scale / msUnit.scale)) ∧
      mdLookup "units" md = some (.str sig.units.symbol) ∧
      mdLookup "first_index" md = some (.int 0) ∧
      mdLookup "last_index" md = some (.int ((sig.channels.length : ℤ) - 1)) ∧
      (md.map Prod.fst).Nodup := by
  have hq : qDiv (qMul sig.sampling_period.mag sig.sampling_period.unit.scale) msUnit.scale
      = sig.sampling_period.mag * sig.sampling_period.unit.scale / msUnit.scale := by
    rw [qDiv_eq, qMul_eq]
  set m3 := sizedMeta seg.annots sig.channels.length with hm3
  have hl3 : mdLookup "label" m3 = some (.str lab) := by
    rw [hm3, sizedMeta, mdLookup_setKey_ne _ _ (by decide),
      mdLookup_setKey_ne _ _ (by decide), mdLookup_setKey_ne _ _ (by decide), hlab]
  have hd3 : mdLookup "dt" m3 = none := by
    rw [hm3, sizedMeta, mdLookup_setKey_ne _ _ (by decide),
      mdLookup_setKey_ne _ _ (by decide), mdLookup_setKey_ne _ _ (by decide), hdtA]
  have hwl : withLabelDefault m3 = m3 := by
    rw [withLabelDefault, hl3]
    rfl
  set m5 := setKey m3 "dt" (.float
    (sig.sampling_period.mag * sig.sampling_period.unit.scale / msUnit.scale)) with hm5
  have hwd : withDtAnalog m3 sig = .ok m5 := by
    rw [withDtAnalog, hd3]
    show (if false = true then _ else _) = _
    rw [if_neg (by decide)]
    rw [rescaleQ, if_pos (show sig.sampling_period.unit.dim = msUnit.dim from hdim)]
    rw [except_bind_ok]
    rw [hm5, hq]
    rfl
  set m6 := setKey m5 "n" (.int ((sig.channels.map List.length).sum : ℤ)) with hm6
  have hres : resolveUnits seg.annots m6 sig.units = (sig.units, m6) := by
    rw [resolveUnits, hvar]
    show ((UNITS_MAP v).getD sig.units, m6) = (sig.units, m6)
    rw [hunit]
  set m8 := setKey m6 "units" (.str sig.units.symbol) with hm8
  have heval : write_analog seg sig = .ok (flatPack sig.channels 0, m8) := by
    rw [write_analog, hwl, hwd, except_bind_ok]
    show (do
        let data ← packLoop (resolveUnits seg.annots m6 sig.units).1 0
          (sig.channels.map (fun c => (c, sig.units)))
        Except.ok (data, setKey (resolveUnits seg.annots m6 sig.units).2 "units"
          (PyValue.str (resolveUnits seg.annots m6 sig.units).1.symbol))) =
      Except.ok (flatPack sig.channels 0, m8)
    rw [hres]
    show (do
        let data ← packLoop sig.units 0 (sig.channels.map (fun c => (c, sig.units)))
        Except.ok (data, setKey m6 "units" (PyValue.str sig.units.symbol))) =
      Except.ok (flatPack sig.channels 0, m8)
    rw [packLoop_self sig.units hscale sig.channels 0, except_bind_ok, ← hm8]
  refine ⟨m8, heval, ?_, ?_, ?_, ?_, ?_, ?_, ?_⟩
  · rw [hm8, mdLookup_setKey_ne _ _ (by decide), hm6, mdLookup_setKey_ne _ _ (by decide),
      hm5, mdLookup_setKey_ne _ _ (by decide), hm3, sizedMeta,
      mdLookup_setKey_ne _ _ (by decide), mdLookup_setKey_ne _ _ (by decide),
      mdLookup_setKey_ne _ _ (by decide), hvar]
  · rw [hm8, mdLookup_setKey_ne _ _ (by decide), hm6, mdLookup_setKey_ne _ _ (by decide),
      hm5, mdLookup_setKey_ne _ _ (by decide), hl3]
  · rw [hm8, mdLookup_setKey_ne _ _ (by decide), hm6, mdLookup_setKey_ne _ _ (by decide),
      hm5, mdLookup_setKey_self]
  · rw [hm8, mdLookup_setKey_self]
  · rw [hm8, mdLookup_setKey_ne _ _ (by decide), hm6, mdLookup_setKey_ne _ _ (by decide),
      hm5, mdLookup_setKey_ne _ _ (by decide), hm3, sizedMeta,
      mdLookup_setKey_ne _ _ (by decide), mdLookup_setKey_self]
  · rw [hm8, mdLookup_setKey_ne _ _ (by decide), hm6, mdLookup_setKey_ne _ _ (by decide),
      hm5, mdLookup_setKey_ne _ _ (by decide), hm3, sizedMeta, mdLookup_setKey_self]
  · rw [hm8]
    apply nodup_keys_setKey
    rw [hm6]
    apply nodup_keys_setKey
    rw [hm5]
    apply nodup_keys_setKey
    rw [hm3, sizedMeta]
    exact nodup_keys_setKey _ _ (nodup_keys_setKey _ _ (nodup_keys_setKey _ _ hnd))

theorem getKey_some {md : Metadata} {k : String} {v : PyValue}
    (h : mdLookup k md = some v) : getKey md k = .ok v := by
  rw [getKey, h]

theorem getIntKey_int {md : Metadata} {k : String} {n : ℤ}
    (h : mdLookup k md = some (.int n)) : getIntKey md k = .ok n := by
  rw [getIntKey, getKey, h, except_bind_ok]

theorem getNumKey_float {md : Metadata} {k : String} {q : ℚ}
    (h : mdLookup k md = some (.float q)) : getNumKey md k = .ok q := by
  rw [getNumKey, getKey, h, except_bind_ok]

theorem vstack_ok (chans : List (List ℚ)) (T : ℕ) (hC : chans ≠ [])
    (hrect : ∀ c ∈ chans, c.length = T) : vstack chans = .ok chans := by
  match chans with
  | [] => exact absurd rfl hC
  | c :: rest =>
    rw [vstack, if_pos]
    rw [List.all_eq_true]
    intro r hr
    rw [decide_eq_true_eq, hrect r (List.mem_cons_of_mem c hr), hrect c (List.mem_cons_self ..)]

/-- What `_extract_signals` reconstructs from the flat table of a packed
channel list together with well-formed metadata. -/
theorem extract_signals_spec (dataChans : List (List ℚ)) (md : Metadata) (v lab : String)
    (T : ℕ) (U : PqUnit) (dtv : ℚ)
    (hfi : mdLookup "first_index" md = some (.int 0))
    (hli : mdLookup "last_index" md = some (.int ((dataChans.length : ℤ) - 1)))
    (hunits : mdLookup "units" md = some (.str U.symbol))
    (hpu : parseUnit U.symbol = some U)
    (hdt : mdLookup "dt" md = some (.float dtv))
    (hlab : mdLookup "label" md = some (.str lab))
    (hvar : mdLookup "variable" md = some (.str v))
    (hC : dataChans ≠ [])
    (hrect : ∀ c ∈ dataChans, c.length = T) :
    extract_signals (flatPack dataChans 0) md = .ok
      { channels := dataChans, units := U, sampling_period := ⟨dtv, msUnit⟩,
        annots := [("label", .str lab), ("variable", .str v)] } := by
  have hdet : determine_units md = .ok (.inl (.str U.symbol)) := by
    rw [determine_units, hunits]
  have hof : unitOf (.inl (.str U.symbol)) = .ok U := by
    show (match parseUnit U.symbol with
      | some u => Except.ok u
      | none => (Except.error (PyNNError.unknownUnit U.symbol) : Except PyNNError PqUnit)) =
      Except.ok U
    rw [hpu]
  rw [extract_signals, getIntKey_int hfi, except_bind_ok, getIntKey_int hli, except_bind_ok,
    extract_channels, vstack_ok dataChans T hC hrect, except_bind_ok,
    if_pos (by exact List.length_pos.mpr hC),
    hdet, except_bind_ok, getNumKey_float hdt, except_bind_ok, hof, except_bind_ok,
    getKey_some hlab, except_bind_ok, getKey_some hvar, except_bind_ok]

/-- What `read_segment` reconstructs from the flat table of a packed
channel list together with well-formed continuous-variable metadata. -/
theorem read_segment_spec (dataChans : List (List ℚ)) (md : Metadata) (v lab : String)
    (T : ℕ) (U : PqUnit) (dtv : ℚ)
    (hvar : mdLookup "variable" md = some (.str v))
    (hvne : v ≠ "spikes")
    (hfi : mdLookup "first_index" md = some (.int 0))
    (hli : mdLookup "last_index" md = some (.int ((dataChans.length : ℤ) - 1)))
    (hunits : mdLookup "units" md = some (.str U.symbol))
    (hpu : parseUnit U.symbol = some U)
    (hdt : mdLookup "dt" md = some (.float dtv))
    (hlab : mdLookup "label" md = some (.str lab))
    (hC : dataChans ≠ [])
    (hrect : ∀ c ∈ dataChans, c.length = T) :
    read_segment (flatPack dataChans 0) md = .ok
      { analogsignals := [{ channels := dataChans, units := U,
                            sampling_period := ⟨dtv, msUnit⟩,
                            annots := [("label", .str lab), ("variable", .str v)] }],
        spiketrains := [],
        annots := [("label", .str lab), ("variable", .str v),
                   ("first_id", defaultAnn md "first_id"),
                   ("last_id", defaultAnn md "last_id")] } := by
  have hal : defaultAnn md "label" = .str lab := by
    rw [defaultAnn, hlab]
    rfl
  have hav : defaultAnn md "variable" = .str v := by
    rw [defaultAnn, hvar]
    rfl
  have hne : ¬(PyValue.str v = PyValue.str "spikes") := by
    intro h
    injection h with h
    exact hvne h
  rw [read_segment, hal, hav, getKey_some hvar, except_bind_ok, if_neg hne,
    extract_signals_spec dataChans md v lab T U dtv hfi hli hunits hpu hdt hlab hvar hC hrect,
    except_bind_ok]

/-- Claim C1 (amended): write-then-read round trip through the binary
driver for a segment whose first (and thus only written) analog signal
is well formed — rectangular with at least one channel — and whose
metadata survives the driver's stringify/`eval` cycle: the `label` and
`variable` annotation strings and the unit symbol are kept as plain
strings by the literal decoder, the segment carries no `dt` annotation,
the sampling period has time dimension and its millisecond magnitude
round-trips through decimal printing, and the signal's unit is already
the unit resolved from its `variable` annotation (so the rescale is the
identity).  Then reading back yields one analog signal with exactly the
same sample values, the same unit, the original `label`/`variable`
annotations, and a sampling period equal to the original as a physical
quantity (expressed in milliseconds). -/
theorem C1_roundtrip_analog (seg : Segment) (sig : AnalogSignal)
    (rest : List AnalogSignal) (v lab : String) (T : ℕ) (dtms : ℚ)
    (hA : seg.analogsignals = sig :: rest)
    (hnd : (seg.annots.map Prod.fst).Nodup)
    (hvar : mdLookup "variable" seg.annots = some (.str v))
    (hvne : v ≠ "spikes")
    (hvdec : decodeValue v = .str v)
    (hunit : (UNITS_MAP v).getD sig.units = sig.units)
    (hlab : mdLookup "label" seg.annots = some (.str lab))
    (hldec : decodeValue lab = .str lab)
    (hdtA : mdLookup "dt" seg.annots = none)
    (hdim : sig.sampling_period.unit.dim = "time")
    (hscale : sig.units.scale ≠ 0)
    (husym : decodeValue sig.units.symbol = .str sig.units.symbol)
    (hpu : parseUnit sig.units.symbol = some sig.units)
    (hdtms : dtms = sig.sampling_period.mag * sig.sampling_period.unit.scale / msUnit.scale)
    (hdtdec : decodePy (.float dtms) = .float dtms)
    (hC : sig.channels ≠ [])
    (hrect : ∀ c ∈ sig.channels, c.length = T) :
    ∃ seg2 : Segment,
      writeReadNumpy seg = .ok seg2 ∧
      seg2.spiketrains = [] ∧
      seg2.analogsignals = [{ channels := sig.channels, units := sig.units,
                              sampling_period := ⟨dtms, msUnit⟩,
                              annots := [("label", .str lab), ("variable", .str v)] }] ∧
      mdLookup "label" seg2.annots = some (.str lab) ∧
      mdLookup "variable" seg2.annots = some (.str v) ∧
      dtms * msUnit.scale = sig.sampling_period.mag * sig.sampling_period.unit.scale := by
  obtain ⟨mdw, hw, hkv, hkl, hkd, hku, hkf, hklast, hknd⟩ :=
    write_analog_spec seg sig v lab hnd hvar hunit hlab hdtA hdim hscale
  have hws : write_segment seg = .ok (flatPack sig.channels 0, mdw) := by
    rw [write_segment, hA]
    exact hw
  have hL : ∀ k, mdLookup k (numpyReadMeta (numpyWriteMeta mdw))
      = (mdLookup k mdw).map decodePy :=
    fun k => mdLookup_numpyRoundtrip mdw k hknd
  set md2 := numpyReadMeta (numpyWriteMeta mdw) with hmd2
  have h2var : mdLookup "variable" md2 = some (.str v) := by
    rw [hmd2, hL, hkv, Option.map_some', decodePy_str v hvdec]
  have h2lab : mdLookup "label" md2 = some (.str lab) := by
    rw [hmd2, hL, hkl, Option.map_some', decodePy_str lab hldec]
  have h2dt : mdLookup "dt" md2 = some (.float dtms) := by
    rw [hmd2, hL, hkd, Option.map_some', ← hdtms, hdtdec]
  have h2units : mdLookup "units" md2 = some (.str sig.units.symbol) := by
    rw [hmd2, hL, hku, Option.map_some', decodePy_str _ husym]
  have h2fi : mdLookup "first_index" md2 = some (.int 0) := by
    rw [hmd2, hL, hkf, Option.map_some', decodePy_int 0]
  have h2li : mdLookup "last_index" md2 = some (.int ((sig.channels.length : ℤ) - 1)) := by
    rw [hmd2, hL, hklast, Option.map_some', decodePy_int _]
  have hr := read_segment_spec sig.channels md2 v lab T sig.units dtms
    h2var hvne h2fi h2li h2units hpu h2dt h2lab hC hrect
  refine ⟨{ analogsignals := [{ channels := sig.channels, units := sig.units,
                                sampling_period := ⟨dtms, msUnit⟩,
                                annots := [("label", .str lab), ("variable", .str v)] }],
            spiketrains := [],
            annots := [("label", .str lab), ("variable", .str v),
                       ("first_id", defaultAnn md2 "first_id"),
                       ("last_id", defaultAnn md2 "last_id")] },
    ?_, rfl, rfl, ?_, ?_, ?_⟩
  · rw [writeReadNumpy, hws, except_bind_ok]
    exact hr
  · rw [mdLookup, if_pos rfl]
  · rw [mdLookup, if_neg (by decide), mdLookup, if_pos rfl]
  · rw [hdtms, div_mul_cancel₀]
    rw [show msUnit.scale = mkRat 1 1000 from rfl, mkRat_eq_cast_div]
    norm_num

/-- The C1 counterexample input signal: two one-sample channels recorded
in volts. -/
def sigC1 : AnalogSignal :=
  { channels := [[2], [3]], units := VUnit, sampling_period := ⟨mkRat 1 10, msUnit⟩,
    annots := [] }

/-- The C1 counterexample segment: variable `v` (canonical unit mV) and
the label string `1`. -/
def segC1 : Segment :=
  { analogsignals := [sigC1], spiketrains := [],
    annots := [("label", .str "1"), ("variable", .str "v")] }

/-- Claim C1 (counterexample): the round trip as claimed fails on
`segC1`: writing rescales the volt samples to the canonical millivolts
(values ×1000 and unit mV instead of V on read-back), and the driver's
`eval` decoding retypes the label string `1` to the integer 1 — the
read-back signal preserves neither the sample values, nor the unit, nor
the label annotation of the original. -/
theorem C1_roundtrip_counterexample :
    sigC1.units = VUnit ∧ sigC1.channels = [[2], [3]] ∧
    mdLookup "label" segC1.annots = some (.str "1") ∧
    (writeReadNumpy segC1).map
      (fun s => s.analogsignals.map
        (fun sg => (sg.channels, sg.units, mdLookup "label" sg.annots)))
      = .ok [([[2000], [3000]], mVUnit, some (.int 1))] ∧
    mVUnit ≠ VUnit ∧ ([[2000], [3000]] : List (List ℚ)) ≠ [[2], [3]] ∧
    PyValue.int 1 ≠ PyValue.str "1" := by decide

/-- The C1 witness input signal: two two-sample channels already in the
canonical millivolts. -/
def sigC1w : AnalogSignal :=
  { channels := [[mkRat 1 2, 3], [5, 7]], units := mVUnit,
    sampling_period := ⟨mkRat 1 10, msUnit⟩, annots := [] }

/-- The C1 witness segment. -/
def segC1w : Segment :=
  { analogsignals := [sigC1w], spiketrains := [],
    annots := [("label", .str "cellA"), ("variable", .str "v")] }

/-- Witness for the amended C1 at a concrete well-formed segment. -/
theorem C1_roundtrip_analog_witness :
    ∃ seg2 : Segment,
      writeReadNumpy segC1w = .ok seg2 ∧
      seg2.spiketrains = [] ∧
      seg2.analogsignals = [{ channels := sigC1w.channels, units := sigC1w.units,
                              sampling_period := ⟨mkRat 1 10, msUnit⟩,
                              annots := [("label", .str "cellA"), ("variable", .str "v")] }] ∧
      mdLookup "label" seg2.annots = some (.str "cellA") ∧
      mdLookup "variable" seg2.annots = some (.str "v") ∧
      (mkRat 1 10) * msUnit.scale
        = sigC1w.sampling_period.mag * sigC1w.sampling_period.unit.scale :=
  C1_roundtrip_analog segC1w sigC1w [] "v" "cellA" 2 (mkRat 1 10)
    rfl (by decide) rfl (by decide) (by decide) (by decide) rfl (by decide) rfl rfl
    (by decide) (by decide) (by decide)
    (by
      show mkRat 1 10 = mkRat 1 10 * mkRat 1 1000 / mkRat 1 1000
      rw [mul_div_assoc, div_self, mul_one]
      rw [mkRat_eq_cast_div]
      norm_num)
    (by decide) (by decide) (by decide)

/-- Claim C3: a successful run of the packing loop (at position counter
0, as `write_segment` calls it) concatenates the channels, rescaled to
the resolved common unit, into column 0 in channel order; its total row
count is the sum of the channel lengths; and filtering column 1 by a
channel's 0-based position among the packed channels (the unpack
operation `_extract_array`) recovers exactly that channel's rescaled
values. -/
theorem C3_pack_layout (chans : List (List ℚ × PqUnit)) (u : PqUnit) (flat : List (ℚ × ℚ))
    (h : packLoop u 0 chans = .ok flat) :
    flat.length = (chans.map (fun c => c.1.length)).sum ∧
    flat.map Prod.fst =
      (chans.map (fun c => c.1.map (fun v => v * c.2.scale / u.scale))).flatten ∧
    ∀ i, (hi : i < chans.length) →
      extract_array flat (i : ℤ) =
        (chans.get ⟨i, hi⟩).1.map (fun v => v * (chans.get ⟨i, hi⟩).2.scale / u.scale) := by
  have hf := packLoop_eq_flatPack chans u 0 flat h
  subst hf
  refine ⟨?_, flatPack_col0 _ 0, ?_⟩
  · rw [flatPack_length, List.map_map]
    congr 1
    exact List.map_congr_left (fun c _ => by rw [Function.comp_apply, List.length_map])
  · intro i hi
    have h3 := extract_flatPack
      (chans.map (fun c => c.1.map (fun v => v * c.2.scale / u.scale))) 0 i
      (by rw [List.length_map]; exact hi)
    rw [show ((0 + i : ℕ) : ℤ) = (i : ℤ) by omega] at h3
    rw [h3]
    rw [List.get_map]

/-- Witness for C3 at a concrete channel list: two channels in mV packed
to mV (identity rescale). -/
theorem C3_pack_layout_witness :
    ([( (1 : ℚ), (0 : ℚ)), (2, 0), (3, 1)] : List (ℚ × ℚ)).length =
      ([([(1 : ℚ), 2], mVUnit), ([3], mVUnit)].map (fun c => c.1.length)).sum ∧
    ([( (1 : ℚ), (0 : ℚ)), (2, 0), (3, 1)] : List (ℚ × ℚ)).map Prod.fst =
      (([([(1 : ℚ), 2], mVUnit), ([3], mVUnit)]).map
        (fun c => c.1.map (fun v => v * c.2.scale / mVUnit.scale))).flatten ∧
    ∀ i, (hi : i < ([([(1 : ℚ), 2], mVUnit), ([3], mVUnit)] : List (List ℚ × PqUnit)).length) →
      extract_array [((1 : ℚ), (0 : ℚ)), (2, 0), (3, 1)] (i : ℤ) =
        (([([(1 : ℚ), 2], mVUnit), ([3], mVUnit)].get ⟨i, hi⟩)).1.map
          (fun v => v * (([([(1 : ℚ), 2], mVUnit), ([3], mVUnit)].get ⟨i, hi⟩)).2.scale / mVUnit.scale) :=
  C3_pack_layout [([(1 : ℚ), 2], mVUnit), ([3], mVUnit)] mVUnit
    [((1 : ℚ), (0 : ℚ)), (2, 0), (3, 1)] (by decide)

end Pynn
